import Mathlib

/-!
Verification of the MCP conformance action core: the result parser, the
per-scenario client executor, the per-target runner, the badge generator,
the baseline comparator and the detail-table renderer.

Shallow embedding conventions:
- JavaScript objects used as string-keyed maps become association lists
  over String; property assignment updates in place when the key exists
  and appends otherwise, as JS objects do.
- JS numbers holding test counts become Nat; Math.round on a non-negative
  quotient is modelled as exact rational rounding half upward, which is
  the value the float computation produces at these magnitudes.
- Splitting on a newline, trimming and substring search are modelled on
  character lists, matching the JS string functions.
-/

/-- A JS object used as a map from strings to values of type alpha. -/
abbrev JsRecord (α : Type) : Type := List (String × α)

/-- JS property read: first binding of the key, none when absent. -/
def recLookup {α : Type} : JsRecord α → String → Option α
  | [], _ => none
  | (k', v) :: rest, k => if k' = k then some v else recLookup rest k

/-- JS property assignment: replace the value in place when the key is
present, append the binding otherwise. -/
def recSet {α : Type} : JsRecord α → String → α → JsRecord α
  | [], k, v => [(k, v)]
  | (k', v') :: rest, k, v =>
      if k' = k then (k', v) :: rest else (k', v') :: recSet rest k v

/-- Split a character list at each occurrence of the separator; the JS
split semantics, so the empty text gives one empty field. -/
def splitCharsOn (sep : Char) : List Char → List (List Char)
  | [] => [[]]
  | c :: rest =>
      match splitCharsOn sep rest with
      | [] => [[]]
      | grp :: grps => if c = sep then [] :: grp :: grps else (c :: grp) :: grps

/-- The JS split of a string at newlines. -/
def jsSplitLines (s : String) : List String :=
  (splitCharsOn '\n' s.toList).map fun g => String.mk g

/-- The JS trim: drop whitespace from both ends. -/
def trimChars (cs : List Char) : List Char :=
  ((cs.dropWhile Char.isWhitespace).reverse.dropWhile Char.isWhitespace).reverse

/-- Bool test: pat starts the text. -/
def isPrefixB : List Char → List Char → Bool
  | [], _ => true
  | _ :: _, [] => false
  | a :: as, b :: bs => a == b && isPrefixB as bs

/-- Bool test: pat occurs inside the text, the JS includes function. -/
def hasSubstr (pat : List Char) : List Char → Bool
  | [] => isPrefixB pat []
  | c :: rest => isPrefixB pat (c :: rest) || hasSubstr pat rest

/-- The JS includes test on strings. -/
def containsSubstr (s pat : String) : Bool :=
  hasSubstr pat.toList s.toList

/-- The lazy group of the result-line regex: the shortest non-empty
prefix of the body that is followed by a colon or reaches the line end. -/
def lazyCapture : List Char → List Char
  | [] => []
  | c :: rest =>
      match rest with
      | [] => [c]
      | r :: _ => if r == ':' then [c] else c :: lazyCapture rest

/-- Matching after a result glyph: at least one whitespace character,
then the lazy capture up to a colon or the line end. The whitespace run
is greedy and gives one character back only when the rest of the line
would otherwise be empty, as the backtracking regex engine does. -/
def findCapture (cs : List Char) : Option (List Char) :=
  let w := (cs.takeWhile Char.isWhitespace).length
  let k := min w (cs.length - 1)
  if k = 0 then none else some (lazyCapture (cs.drop k))

/-- Leftmost regex match on a line: scan for a glyph whose tail matches. -/
def scanFor (isGlyph : Char → Bool) : List Char → Option (List Char)
  | [] => none
  | c :: rest =>
      if isGlyph c then
        match findCapture rest with
        | some cap => some cap
        | none => scanFor isGlyph rest
      else scanFor isGlyph rest

/-- Pass glyphs of the result-line regex. -/
def passGlyph (c : Char) : Bool := c == '✓' || c == '✅'

/-- Fail glyphs of the result-line regex. -/
def failGlyph (c : Char) : Bool := c == '✗' || c == '❌'

/-- Run one glyph regex on a line and trim the captured name. -/
def matchLine (isGlyph : Char → Bool) (line : String) : Option String :=
  (scanFor isGlyph line.toList).map fun cap => String.mk (trimChars cap)

/-- The per-line verdict of the line-scan parser: the pass pattern is
tried first, then the fail pattern, other lines are ignored. -/
def lineVerdict (line : String) : Option (String × Bool) :=
  match matchLine passGlyph line with
  | some n => some (n, true)
  | none =>
      match matchLine failGlyph line with
      | some n => some (n, false)
      | none => none

/-- The rate computation shared by the parser and the client executor:
Math.round of 100 times passed over total, zero when total is zero. -/
def computeRate (passed total : Nat) : Nat :=
  if 0 < total then (200 * passed + total) / (2 * total) else 0

/-- The structured result record of one target, as in types.ts. -/
structure ServerTestResult where
  serverName : String
  passed : Nat
  failed : Nat
  total : Nat
  rate : Nat
  tests : JsRecord Bool
  rawOutput : String
deriving DecidableEq, Repr

/-- The common tail of the parser and the executor: derive total and
rate from the counters and assemble the record. -/
def finishResult (serverName : String) (tests : JsRecord Bool)
    (passed failed : Nat) (raw : String) : ServerTestResult :=
  { serverName := serverName
    passed := passed
    failed := failed
    total := passed + failed
    rate := computeRate passed (passed + failed)
    tests := tests
    rawOutput := raw }

/-- The line loop of parseConformanceOutput: thread the tests map and
the two counters over the lines. -/
def parseLoop : List String → JsRecord Bool → Nat → Nat → JsRecord Bool × Nat × Nat
  | [], tests, p, f => (tests, p, f)
  | line :: rest, tests, p, f =>
      match lineVerdict line with
      | some nb =>
          parseLoop rest (recSet tests nb.1 nb.2)
            (if nb.2 then p + 1 else p) (if nb.2 then f else f + 1)
      | none => parseLoop rest tests p f

/-- result-parser.ts parseConformanceOutput: scan the captured text line
by line and aggregate the glyph-marked test lines. -/
def parseConformanceOutput (serverName output : String) : ServerTestResult :=
  let res := parseLoop (jsSplitLines output) [] 0 0
  finishResult serverName res.1 res.2.1 res.2.2 output

/-- comment-generator.ts parseOldResultsFile: same line scan applied to
an archived text report. -/
def parseOldResultsFile (content serverName : String) : ServerTestResult :=
  let res := parseLoop (jsSplitLines content) [] 0 0
  finishResult serverName res.1 res.2.1 res.2.2 content

/-- The marker the client executor searches for in a scenario run. -/
def overallMarker : String := "OVERALL: PASSED"

/-- The pure input of one client conformance test: the client name and,
for each scenario in resolution order, the text captured from the one
checker invocation for that scenario (stdout and stderr combined). -/
structure ClientRunInput where
  name : String
  runs : List (String × String)

/-- The scenario loop of runClientConformanceTest: record the verdict of
each scenario in the tests map, bump the counters and accumulate the
captured text followed by a newline. -/
def clientLoop : List (String × String) → JsRecord Bool → Nat → Nat → String →
    JsRecord Bool × Nat × Nat × String
  | [], tests, p, f, out => (tests, p, f, out)
  | (scen, so) :: rest, tests, p, f, out =>
      let v := containsSubstr so overallMarker
      clientLoop rest (recSet tests scen v)
        (if v then p + 1 else p) (if v then f else f + 1) (out ++ so ++ "\n")

/-- conformance-runner.ts runClientConformanceTest, decision core: when
no scenario is available the empty text is parsed, otherwise each
scenario run is judged by the overall marker. -/
def runClientConformanceTest (client : ClientRunInput) : ServerTestResult :=
  if client.runs = [] then parseConformanceOutput client.name ""
  else
    let res := clientLoop client.runs [] 0 0 ""
    finishResult client.name res.1 res.2.1 res.2.2.1 res.2.2.2

/-- The mode selector of the action. -/
inductive TestType where
  | server
  | client
  | both
deriving DecidableEq

/-- One configured target together with the outcome of invoking its
per-target test function: either the result it returned or the message
of the exception it threw. -/
structure TargetRun where
  name : String
  outcome : Except String ServerTestResult

/-- The per-target try-catch of runAllConformanceTests: a thrown error
becomes the all-zero result with the error text in rawOutput. -/
def resolveTarget (t : TargetRun) : ServerTestResult :=
  match t.outcome with
  | Except.ok r => r
  | Except.error e =>
      { serverName := t.name, passed := 0, failed := 0, total := 0, rate := 0,
        tests := [], rawOutput := "Error: " ++ e }

/-- The push loop over one target list. -/
def targetLoop : List TargetRun → List ServerTestResult → List ServerTestResult
  | [], acc => acc
  | t :: rest, acc => targetLoop rest (acc ++ [resolveTarget t])

/-- conformance-runner.ts runAllConformanceTests: servers first when the
test type asks for them, then clients when the test type asks for them
and the client list is non-empty. -/
def runAllConformanceTests (servers clients : List TargetRun) (tt : TestType) :
    List ServerTestResult :=
  let results : List ServerTestResult := []
  let results :=
    if tt = TestType.server ∨ tt = TestType.both then targetLoop servers results
    else results
  if (tt = TestType.client ∨ tt = TestType.both) ∧ clients.length ≠ 0 then
    targetLoop clients results
  else results

/-- The all-passed output set by runTestMode. -/
def allPassedOutput (results : List ServerTestResult) : Bool :=
  results.all fun r => r.passed == r.total

/-- The badge payload of badge-generator.ts. -/
structure BadgeData where
  schemaVersion : Nat
  label : String
  message : String
  color : String
deriving DecidableEq, Repr

/-- badge-generator.ts generateBadgeData. -/
def generateBadgeData (serverName : String) (result : ServerTestResult) : BadgeData :=
  if result.total = 0 then
    { schemaVersion := 1
      label := "MCP Conformance (" ++ serverName ++ ")"
      message := "no tests"
      color := "lightgrey" }
  else
    { schemaVersion := 1
      label := "MCP Conformance (" ++ serverName ++ ")"
      message := toString result.passed ++ "/" ++ toString result.total ++
        " (" ++ toString result.rate ++ "%)"
      color :=
        if result.passed = result.total then "brightgreen"
        else if 60 ≤ result.rate then "yellow"
        else "red" }

/-- comment-generator.ts getComparisonIcon. -/
def getComparisonIcon (current : ServerTestResult)
    (baseline : Option ServerTestResult) : String :=
  match baseline with
  | none => "🆕"
  | some b =>
      if b.total = 0 then "🆕"
      else
        let diff : Int := (current.passed : Int) - (b.passed : Int)
        if 0 < diff then "🟢 +" ++ toString diff
        else if diff < 0 then "🔴 " ++ toString diff
        else "⚪ +0"

/-- Append a key to the accumulator unless already present: the Set
union of getAllTestNames in insertion order. -/
def dedupAppend (acc : List String) (k : String) : List String :=
  if acc.contains k then acc else acc ++ [k]

/-- Insert a string into a lexicographically sorted list. -/
def insertSorted (s : String) : List String → List String
  | [] => [s]
  | t :: rest => if s < t then s :: t :: rest else t :: insertSorted s rest

/-- Lexicographic sort, the JS default Array sort on strings. -/
def sortStrings (l : List String) : List String :=
  l.foldr insertSorted []

/-- result-parser.ts getAllTestNames: sorted union of the test names of
all results. -/
def getAllTestNames (results : List ServerTestResult) : List String :=
  sortStrings (results.foldl (fun acc r => r.tests.foldl (fun a p => dedupAppend a p.1) acc) [])

/-- The JS Array join. -/
def joinSep (sep : String) : List String → String
  | [] => ""
  | x :: xs => xs.foldl (fun a s => a ++ sep ++ s) x

/-- The status icon of one detail cell. -/
def iconOf : Option Bool → String
  | some true => "✅"
  | some false => "❌"
  | none => "➖"

/-- One cell of the detail table of comment-generator.ts: the icon of
the current verdict, plus a change flag when the verdict recorded for
this test under the baseline branch named main differs. -/
def detailCell (baselines : JsRecord (JsRecord ServerTestResult))
    (result : ServerTestResult) (testName : String) : String :=
  let current := recLookup result.tests testName
  let baseline :=
    match recLookup baselines "main" with
    | none => none
    | some m =>
        match recLookup m result.serverName with
        | none => none
        | some br => recLookup br.tests testName
  let icon := iconOf current
  match baseline with
  | none => icon
  | some b =>
      if some b = current then icon
      else if current == some true && b == false then icon ++ " +1"
      else if current == some false && b == true then icon ++ " -1"
      else icon

/-- comment-generator.ts generateDetailTable: scenarios as rows, one
column per target. -/
def generateDetailTable (results : List ServerTestResult)
    (baselines : JsRecord (JsRecord ServerTestResult)) : String :=
  if (getAllTestNames results).isEmpty then ""
  else
    joinSep "\n"
      (("| Scenario | " ++ joinSep " | " (results.map fun r => r.serverName) ++ " |") ::
       ("|----------|" ++ joinSep "|" (results.map fun _ => ":---:") ++ "|") ::
       (getAllTestNames results).map fun testName =>
         "| " ++ testName ++ " | " ++
           joinSep " | " (results.map fun r => detailCell baselines r testName) ++ " |")

/-- The scenario-line regex of listClientScenarios: leading whitespace,
a dash, whitespace, then the maximal non-whitespace run as the name. -/
def scenMatch (line : String) : Option String :=
  let cs := line.toList
  let ws1 := cs.takeWhile Char.isWhitespace
  if ws1.isEmpty then none
  else
    match cs.drop ws1.length with
    | '-' :: rest =>
        let ws2 := rest.takeWhile Char.isWhitespace
        if ws2.isEmpty then none
        else
          let cap := (rest.drop ws2.length).takeWhile fun c => !c.isWhitespace
          if cap.isEmpty then none else some (String.mk cap)
    | _ => none

/-- The line loop of listClientScenarios: enter the client section at a
header line, stop at the server header or at a blank line once at least
one scenario was captured, and push untagged scenario lines. -/
def lcsGo : Bool → List String → List String → List String
  | _, acc, [] => acc
  | inClient, acc, line :: rest =>
      if containsSubstr line "Client scenarios" then lcsGo true acc rest
      else if inClient then
        if containsSubstr line "Server scenarios" ||
            (!acc.isEmpty && (String.mk (trimChars line.toList) == "")) then acc
        else
          match scenMatch line with
          | some scen =>
              if !containsSubstr line "[draft]" && !containsSubstr line "[extension]" then
                lcsGo true (acc ++ [scen]) rest
              else lcsGo true acc rest
          | none => lcsGo true acc rest
      else lcsGo false acc rest

/-- conformance-runner.ts listClientScenarios, parsing core: applied to
the text captured from the list subcommand of the checker. -/
def listClientScenarios (output : String) : List String :=
  lcsGo false [] (jsSplitLines output)

def applyEntries : JsRecord Bool → List (String × Bool) → JsRecord Bool
  | m, [] => m
  | m, e :: rest => applyEntries (recSet m e.1 e.2) rest

def ResultInvariant (r : ServerTestResult) : Prop :=
  r.total = r.passed + r.failed ∧
  (r.total = 0 → r.rate = 0) ∧
  (0 < r.total → (r.rate : ℤ) = round ((100 * r.passed : ℚ) / (r.total : ℚ)))

def curEx : ServerTestResult :=
  { serverName := "s", passed := 8, failed := 2, total := 10, rate := 80,
    tests := [], rawOutput := "" }

def baseEx : ServerTestResult :=
  { serverName := "s", passed := 6, failed := 4, total := 10, rate := 60,
    tests := [], rawOutput := "" }

def rEx : ServerTestResult :=
  { serverName := "srv", passed := 1, failed := 0, total := 1, rate := 100,
    tests := [("t", true)], rawOutput := "" }

def bEx : ServerTestResult :=
  { serverName := "srv", passed := 0, failed := 1, total := 1, rate := 0,
    tests := [("t", false)], rawOutput := "" }

theorem computeRate_eq_round (p t : Nat) (ht : 0 < t) :
    (computeRate p t : ℤ) = round ((100 * p : ℚ) / (t : ℚ)) := by
  have htQ : (0 : ℚ) < (t : ℚ) := by exact_mod_cast ht
  rw [computeRate, if_pos ht, round_eq]
  have hx : (100 * (p : ℚ)) / (t : ℚ) + 1 / 2
      = ((200 * p + t : ℕ) : ℚ) / ((2 * t : ℕ) : ℚ) := by
    push_cast
    rw [div_add_div _ _ (ne_of_gt htQ) (two_ne_zero), div_eq_div_iff (by positivity) (by positivity)]
    ring
  rw [hx]
  have hb : 0 < 2 * t := by omega
  have hbQ : (0 : ℚ) < ((2 * t : ℕ) : ℚ) := by exact_mod_cast hb
  have h1 : ((200 * p + t) / (2 * t)) * (2 * t) ≤ 200 * p + t := Nat.div_mul_le_self _ _
  have h2 : 200 * p + t < ((200 * p + t) / (2 * t) + 1) * (2 * t) :=
    (Nat.div_lt_iff_lt_mul hb).mp (Nat.lt_succ_self _)
  symm
  rw [Int.floor_eq_iff]
  refine ⟨?_, ?_⟩
  · rw [le_div_iff₀ hbQ]
    exact_mod_cast h1
  · rw [div_lt_iff₀ hbQ]
    exact_mod_cast h2

theorem recLookup_recSet {α : Type} (m : JsRecord α) (n k : String) (v : α) :
    recLookup (recSet m n v) k = if n = k then some v else recLookup m k := by
  induction m with
  | nil => simp [recSet, recLookup]
  | cons e rest ih =>
    obtain ⟨k', v'⟩ := e
    by_cases h1 : k' = n
    · subst h1
      by_cases h2 : k' = k <;> simp [recSet, recLookup, h2]
    · by_cases h2 : k' = k
      · have hnk : ¬ n = k := fun h => h1 (h2.trans h.symm)
        have hkn : ¬ k = n := fun h => hnk h.symm
        simp [recSet, recLookup, h1, h2, hnk, hkn]
      · simp [recSet, recLookup, h1, h2, ih]

theorem find_append_cases {α : Type} (l₁ l₂ : List α) (p : α → Bool) :
    (l₁ ++ l₂).find? p =
      match l₁.find? p with
      | some a => some a
      | none => l₂.find? p := by
  induction l₁ with
  | nil => simp
  | cons a l ih =>
    by_cases h : p a <;> simp [List.find?_cons, h, ih]

theorem applyEntries_lookup (entries : List (String × Bool)) (m : JsRecord Bool) (k : String) :
    recLookup (applyEntries m entries) k =
      match entries.reverse.find? (fun e => e.1 == k) with
      | some e => some e.2
      | none => recLookup m k := by
  induction entries generalizing m with
  | nil => simp [applyEntries]
  | cons e rest ih =>
    rw [applyEntries, ih, List.reverse_cons, find_append_cases]
    cases hr : rest.reverse.find? (fun e => e.1 == k) with
    | some x => simp
    | none =>
      rw [recLookup_recSet]
      by_cases he : e.1 = k
      · have hb : (e.1 == k) = true := beq_iff_eq.mpr he
        simp [List.find?, hb, he]
      · have hb : (e.1 == k) = false := beq_eq_false_iff_ne.mpr he
        simp [List.find?, hb, he]

theorem parseLoop_tests (lines : List String) (m : JsRecord Bool) (p f : Nat) :
    (parseLoop lines m p f).1 = applyEntries m (lines.filterMap lineVerdict) := by
  induction lines generalizing m p f with
  | nil => simp [parseLoop, applyEntries]
  | cons line rest ih =>
    cases h : lineVerdict line with
    | none => simp [parseLoop, h, ih, List.filterMap_cons]
    | some nb => simp [parseLoop, h, ih, List.filterMap_cons, applyEntries]

theorem clientLoop_tests (runs : List (String × String)) (m : JsRecord Bool)
    (p f : Nat) (o : String) :
    (clientLoop runs m p f o).1 =
      applyEntries m (runs.map fun run => (run.1, containsSubstr run.2 overallMarker)) := by
  induction runs generalizing m p f o with
  | nil => simp [clientLoop, applyEntries]
  | cons run rest ih =>
    obtain ⟨scen, so⟩ := run
    simp [clientLoop, ih, applyEntries]

theorem clientLoop_passed (runs : List (String × String)) (m : JsRecord Bool)
    (p f : Nat) (o : String) :
    (clientLoop runs m p f o).2.1 =
      p + runs.countP (fun run => containsSubstr run.2 overallMarker) := by
  induction runs generalizing m p f o with
  | nil => simp [clientLoop]
  | cons run rest ih =>
    obtain ⟨scen, so⟩ := run
    by_cases h : containsSubstr so overallMarker <;>
      simp [clientLoop, h, ih, List.countP_cons] <;> omega

theorem clientLoop_failed (runs : List (String × String)) (m : JsRecord Bool)
    (p f : Nat) (o : String) :
    (clientLoop runs m p f o).2.2.1 =
      f + runs.countP (fun run => !containsSubstr run.2 overallMarker) := by
  induction runs generalizing m p f o with
  | nil => simp [clientLoop]
  | cons run rest ih =>
    obtain ⟨scen, so⟩ := run
    by_cases h : containsSubstr so overallMarker <;>
      simp [clientLoop, h, ih, List.countP_cons] <;> omega

theorem find_of_nodup_keys {α : Type} (l : List (String × α)) (k : String) (v : α)
    (hnd : (l.map Prod.fst).Nodup) (hm : (k, v) ∈ l) :
    l.find? (fun e => e.1 == k) = some (k, v) := by
  induction l with
  | nil => cases hm
  | cons e rest ih =>
    rcases List.mem_cons.mp hm with he | hr
    · subst he; simp [List.find?]
    · have hk : ¬ e.1 = k := by
        intro hek
        have hmem : k ∈ rest.map Prod.fst := by
          exact List.mem_map.mpr ⟨(k, v), hr, rfl⟩
        rw [List.map_cons, List.nodup_cons] at hnd
        exact hnd.1 (hek ▸ hmem)
      have hnd' : (rest.map Prod.fst).Nodup := by
        rw [List.map_cons, List.nodup_cons] at hnd
        exact hnd.2
      have hb : (e.1 == k) = false := beq_eq_false_iff_ne.mpr hk
      simp [List.find?, hb, ih hnd' hr]

theorem targetLoop_append (l : List TargetRun) (acc : List ServerTestResult) :
    targetLoop l acc = acc ++ l.map resolveTarget := by
  induction l generalizing acc with
  | nil => simp [targetLoop]
  | cons t rest ih => simp [targetLoop, ih]

theorem runAll_eq (servers clients : List TargetRun) (tt : TestType) :
    runAllConformanceTests servers clients tt =
      (if tt = TestType.server ∨ tt = TestType.both then servers.map resolveTarget else []) ++
      (if tt = TestType.client ∨ tt = TestType.both then clients.map resolveTarget else []) := by
  cases tt <;> cases clients <;>
    simp [runAllConformanceTests, targetLoop_append]

theorem lcsGo_sound (lines : List String) (flag : Bool) (acc : List String) :
    ∀ scen ∈ lcsGo flag acc lines, scen ∈ acc ∨
      ∃ line ∈ lines, scenMatch line = some scen ∧
        containsSubstr line "[draft]" = false ∧
        containsSubstr line "[extension]" = false := by
  induction lines generalizing flag acc with
  | nil => intro scen hs; rw [lcsGo] at hs; exact Or.inl hs
  | cons line rest ih =>
    intro scen hs
    rw [lcsGo] at hs
    by_cases h1 : containsSubstr line "Client scenarios"
    · rw [if_pos h1] at hs
      rcases ih true acc scen hs with ha | ⟨l, hl, hm⟩
      · exact Or.inl ha
      · exact Or.inr ⟨l, List.mem_cons_of_mem _ hl, hm⟩
    · rw [if_neg h1] at hs
      by_cases h2 : flag = true
      · rw [if_pos h2] at hs
        by_cases h3 : (containsSubstr line "Server scenarios" ||
            (!acc.isEmpty && (String.mk (trimChars line.toList) == ""))) = true
        · rw [if_pos h3] at hs
          exact Or.inl hs
        · rw [if_neg h3] at hs
          cases hm : scenMatch line with
          | none =>
            simp only [hm] at hs
            rcases ih true acc scen hs with ha | ⟨l, hl, hg⟩
            · exact Or.inl ha
            · exact Or.inr ⟨l, List.mem_cons_of_mem _ hl, hg⟩
          | some s =>
            simp only [hm] at hs
            by_cases h4 : (!containsSubstr line "[draft]" && !containsSubstr line "[extension]") = true
            · rw [if_pos h4] at hs
              rcases ih true (acc ++ [s]) scen hs with ha | ⟨l, hl, hg⟩
              · rcases List.mem_append.mp ha with ha' | hs'
                · exact Or.inl ha'
                · have hse : scen = s := by simpa using hs'
                  subst hse
                  simp only [Bool.and_eq_true, Bool.not_eq_true'] at h4
                  exact Or.inr ⟨line, List.mem_cons_self _ _, hm, h4.1, h4.2⟩
              · exact Or.inr ⟨l, List.mem_cons_of_mem _ hl, hg⟩
            · rw [if_neg h4] at hs
              rcases ih true acc scen hs with ha | ⟨l, hl, hg⟩
              · exact Or.inl ha
              · exact Or.inr ⟨l, List.mem_cons_of_mem _ hl, hg⟩
      · rw [if_neg h2] at hs
        rcases ih false acc scen hs with ha | ⟨l, hl, hg⟩
        · exact Or.inl ha
        · exact Or.inr ⟨l, List.mem_cons_of_mem _ hl, hg⟩

theorem lcsGo_no_header (lines : List String) (acc : List String)
    (h : ∀ line ∈ lines, containsSubstr line "Client scenarios" = false) :
    lcsGo false acc lines = acc := by
  induction lines with
  | nil => rw [lcsGo]
  | cons line rest ih =>
    rw [lcsGo]
    have h1 := h line (List.mem_cons_self _ _)
    rw [h1]
    simp only [Bool.false_eq_true, if_false, if_neg (by simp : ¬ (false = true))]
    exact ih fun l hl => h l (List.mem_cons_of_mem _ hl)

theorem green_ne_new (s : String) : ("🟢 +" ++ s) ≠ "🆕" := by
  intro h
  have hl := congrArg String.length h
  rw [String.length_append] at hl
  have h1 : "🟢 +".length = 3 := rfl
  have h2 : "🆕".length = 1 := rfl
  omega

theorem red_ne_new (s : String) : ("🔴 " ++ s) ≠ "🆕" := by
  intro h
  have hl := congrArg String.length h
  rw [String.length_append] at hl
  have h1 : "🔴 ".length = 2 := rfl
  have h2 : "🆕".length = 1 := rfl
  omega

theorem finishResult_invariant (n : String) (tests : JsRecord Bool) (p f : Nat) (raw : String) :
    ResultInvariant (finishResult n tests p f raw) := by
  refine ⟨rfl, ?_, ?_⟩
  · intro h
    simp only [finishResult] at h ⊢
    rw [h]
    simp [computeRate]
  · intro h
    simp only [finishResult] at h ⊢
    exact computeRate_eq_round p (p + f) h

/-- C1: every result built by the line-scan parser and by the
per-scenario client executor satisfies total = passed + failed, and
rate = round(100 passed / total) when total is positive, else 0. -/
theorem conformance_result_invariant :
    (∀ serverName output, ResultInvariant (parseConformanceOutput serverName output)) ∧
    (∀ client, ResultInvariant (runClientConformanceTest client)) := by
  constructor
  · intro n o
    unfold parseConformanceOutput
    exact finishResult_invariant _ _ _ _ _
  · intro c
    unfold runClientConformanceTest
    split
    · unfold parseConformanceOutput
      exact finishResult_invariant _ _ _ _ _
    · exact finishResult_invariant _ _ _ _ _

theorem conformance_result_invariant_witness :
    ((parseConformanceOutput "s" "✓ a: ok").rate : ℤ) =
      round ((100 * (parseConformanceOutput "s" "✓ a: ok").passed : ℚ) /
        ((parseConformanceOutput "s" "✓ a: ok").total : ℚ)) :=
  (conformance_result_invariant.1 "s" "✓ a: ok").2.2 (by decide)

/-- C2: runAllConformanceTests yields exactly one result per selected
target, independently per target, with a thrown error turned into the
all-zero result carrying the error text. -/
theorem runAll_one_result_per_target (servers clients : List TargetRun) (tt : TestType) :
    (runAllConformanceTests servers clients tt =
      (if tt = TestType.server ∨ tt = TestType.both then servers.map resolveTarget else []) ++
      (if tt = TestType.client ∨ tt = TestType.both then clients.map resolveTarget else [])) ∧
    ((runAllConformanceTests servers clients tt).length =
      (if tt = TestType.server ∨ tt = TestType.both then servers.length else 0) +
      (if tt = TestType.client ∨ tt = TestType.both then clients.length else 0)) ∧
    (∀ n e, resolveTarget { name := n, outcome := Except.error e } =
      { serverName := n, passed := 0, failed := 0, total := 0, rate := 0,
        tests := [], rawOutput := "Error: " ++ e }) := by
  refine ⟨runAll_eq servers clients tt, ?_, fun n e => rfl⟩
  rw [runAll_eq]
  by_cases h1 : tt = TestType.server ∨ tt = TestType.both <;>
    by_cases h2 : tt = TestType.client ∨ tt = TestType.both <;>
      simp [h1, h2]

/-- C3: a client scenario run is judged passed exactly when its captured
text has the literal overall marker; the counters count runs by that
test and the tests map records the verdict of each scenario. -/
theorem client_verdict_marker (client : ClientRunInput) :
    ((runClientConformanceTest client).passed =
      client.runs.countP (fun run => containsSubstr run.2 overallMarker)) ∧
    ((runClientConformanceTest client).failed =
      client.runs.countP (fun run => !containsSubstr run.2 overallMarker)) ∧
    ((client.runs.map Prod.fst).Nodup →
      ∀ scen out, (scen, out) ∈ client.runs →
        recLookup (runClientConformanceTest client).tests scen =
          some (containsSubstr out overallMarker)) := by
  by_cases hempty : client.runs = []
  · refine ⟨?_, ?_, ?_⟩
    · simp only [runClientConformanceTest, hempty, if_pos]
      rfl
    · simp only [runClientConformanceTest, hempty, if_pos]
      rfl
    · intro _ scen out hmem
      rw [hempty] at hmem
      cases hmem
  · unfold runClientConformanceTest
    rw [if_neg hempty]
    refine ⟨?_, ?_, ?_⟩
    · simp only [finishResult]
      rw [clientLoop_passed]
      omega
    · simp only [finishResult]
      rw [clientLoop_failed]
      omega
    · intro hnd scen out hmem
      simp only [finishResult]
      rw [clientLoop_tests, applyEntries_lookup]
      have hkeys : ((client.runs.map fun run => (run.1, containsSubstr run.2 overallMarker)).reverse.map
          Prod.fst).Nodup := by
        rw [List.map_reverse, List.nodup_reverse, List.map_map]
        simpa using hnd
      have hmem2 : (scen, containsSubstr out overallMarker) ∈
          (client.runs.map fun run => (run.1, containsSubstr run.2 overallMarker)).reverse := by
        rw [List.mem_reverse]
        exact List.mem_map.mpr ⟨(scen, out), hmem, rfl⟩
      rw [find_of_nodup_keys _ scen _ hkeys hmem2]

theorem client_verdict_marker_witness :
    recLookup (runClientConformanceTest
        { name := "c", runs := [("a", "x OVERALL: PASSED y")] }).tests "a" = some true := by
  have h := (client_verdict_marker { name := "c", runs := [("a", "x OVERALL: PASSED y")] }).2.2
    (by decide) "a" "x OVERALL: PASSED y" (by decide)
  have h2 : containsSubstr "x OVERALL: PASSED y" overallMarker = true := by decide
  rw [h2] at h
  exact h

/-- C4: badge message is passed slash total with the rate in percent,
or no tests when total is zero; the color is lightgrey exactly when
total is zero, brightgreen exactly when all tests passed and total is
positive, else yellow exactly when the rate is at least 60, else red. -/
theorem badge_message_color (serverName : String) (r : ServerTestResult) :
    ((generateBadgeData serverName r).message =
      if r.total = 0 then "no tests"
      else toString r.passed ++ "/" ++ toString r.total ++ " (" ++ toString r.rate ++ "%)") ∧
    ((generateBadgeData serverName r).color = "lightgrey" ↔ r.total = 0) ∧
    ((generateBadgeData serverName r).color = "brightgreen" ↔ (r.passed = r.total ∧ 0 < r.total)) ∧
    (r.total ≠ 0 → ¬ r.passed = r.total →
      (((generateBadgeData serverName r).color = "yellow" ↔ 60 ≤ r.rate) ∧
       ((generateBadgeData serverName r).color = "red" ↔ r.rate < 60))) := by
  have d1 : ("lightgrey" : String) ≠ "brightgreen" := by decide
  have d2 : ("brightgreen" : String) ≠ "lightgrey" := by decide
  have d3 : ("yellow" : String) ≠ "lightgrey" := by decide
  have d4 : ("red" : String) ≠ "lightgrey" := by decide
  have d5 : ("yellow" : String) ≠ "brightgreen" := by decide
  have d6 : ("red" : String) ≠ "brightgreen" := by decide
  have d7 : ("red" : String) ≠ "yellow" := by decide
  by_cases h0 : r.total = 0
  · simp [generateBadgeData, h0, d1.symm]
  · by_cases h1 : r.passed = r.total
    · have hpos : 0 < r.total := Nat.pos_of_ne_zero h0
      simp [generateBadgeData, h0, h1, d2, hpos]
    · by_cases h2 : 60 ≤ r.rate
      · simp [generateBadgeData, h0, h1, h2, d3, d5, Nat.not_lt.mpr h2]
      · simp [generateBadgeData, h0, h1, h2, d4, d6, d7, Nat.lt_of_not_le h2]

theorem badge_message_color_witness :
    ((generateBadgeData "s" (parseConformanceOutput "s" "✓ a\n✗ b\n✗ c")).color = "yellow" ↔
      60 ≤ (parseConformanceOutput "s" "✓ a\n✗ b\n✗ c").rate) ∧
    ((generateBadgeData "s" (parseConformanceOutput "s" "✓ a\n✗ b\n✗ c")).color = "red" ↔
      (parseConformanceOutput "s" "✓ a\n✗ b\n✗ c").rate < 60) :=
  (badge_message_color "s" (parseConformanceOutput "s" "✓ a\n✗ b\n✗ c")).2.2.2
    (by decide) (by decide)

/-- C10: the all-passed output is the conjunction of passed = total over
the produced results; results with zero totals satisfy it, so a run in
which every target fails entirely, or more generally yields zero tests,
sets all-passed to true. -/
theorem all_passed_output_semantics :
    (∀ results : List ServerTestResult,
      (allPassedOutput results = true ↔ ∀ r ∈ results, r.passed = r.total)) ∧
    (∀ results : List ServerTestResult,
      (∀ r ∈ results, r.total = 0 ∧ r.total = r.passed + r.failed) →
        allPassedOutput results = true) ∧
    (∀ servers clients tt,
      (∀ t ∈ servers, ∃ e, t.outcome = Except.error e) →
      (∀ t ∈ clients, ∃ e, t.outcome = Except.error e) →
        allPassedOutput (runAllConformanceTests servers clients tt) = true) := by
  have hiff : ∀ results : List ServerTestResult,
      (allPassedOutput results = true ↔ ∀ r ∈ results, r.passed = r.total) := by
    intro results
    simp [allPassedOutput, List.all_eq_true, beq_iff_eq]
  refine ⟨hiff, ?_, ?_⟩
  · intro results h
    rw [hiff]
    intro r hr
    have := h r hr
    omega
  · intro servers clients tt hs hc
    rw [hiff]
    intro r hr
    rw [runAll_eq] at hr
    have hzero : ∀ t : TargetRun, (∃ e, t.outcome = Except.error e) →
        (resolveTarget t).passed = (resolveTarget t).total := by
      intro t ⟨e, he⟩
      simp [resolveTarget, he]
    rcases List.mem_append.mp hr with h | h
    · by_cases hcond : tt = TestType.server ∨ tt = TestType.both
      · rw [if_pos hcond] at h
        obtain ⟨t, ht, rfl⟩ := List.mem_map.mp h
        exact hzero t (hs t ht)
      · rw [if_neg hcond] at h
        cases h
    · by_cases hcond : tt = TestType.client ∨ tt = TestType.both
      · rw [if_pos hcond] at h
        obtain ⟨t, ht, rfl⟩ := List.mem_map.mp h
        exact hzero t (hc t ht)
      · rw [if_neg hcond] at h
        cases h

theorem all_passed_output_semantics_witness :
    allPassedOutput (runAllConformanceTests
      [{ name := "a", outcome := Except.error "boom" }] [] TestType.both) = true :=
  all_passed_output_semantics.2.2 [{ name := "a", outcome := Except.error "boom" }] [] TestType.both
    (by
      intro t ht
      rcases List.mem_singleton.mp ht with rfl
      exact ⟨"boom", rfl⟩)
    (by intro t ht; cases ht)

/-- C5: the comparison icon is the new marker exactly when the baseline
is absent or has zero total; otherwise the sign of current passed minus
baseline passed selects improvement, regression or unchanged. -/
theorem baseline_comparison_classification (current : ServerTestResult)
    (baseline : Option ServerTestResult) :
    (getComparisonIcon current baseline = "🆕" ↔
      (baseline = none ∨ ∃ b, baseline = some b ∧ b.total = 0)) ∧
    (∀ b, baseline = some b → b.total ≠ 0 →
      ((b.passed < current.passed →
        getComparisonIcon current baseline =
          "🟢 +" ++ toString ((current.passed : ℤ) - (b.passed : ℤ))) ∧
       (current.passed < b.passed →
        getComparisonIcon current baseline =
          "🔴 " ++ toString ((current.passed : ℤ) - (b.passed : ℤ))) ∧
       (current.passed = b.passed →
        getComparisonIcon current baseline = "⚪ +0"))) := by
  cases baseline with
  | none =>
    refine ⟨⟨fun _ => Or.inl rfl, fun _ => rfl⟩, ?_⟩
    intro b hb
    cases hb
  | some b =>
    by_cases h0 : b.total = 0
    · refine ⟨⟨fun _ => Or.inr ⟨b, rfl, h0⟩, fun _ => ?_⟩, ?_⟩
      · simp [getComparisonIcon, h0]
      · intro b' hb' ht'
        cases hb'
        exact absurd h0 ht'
    · have hicon : getComparisonIcon current (some b) =
          (if 0 < (current.passed : ℤ) - (b.passed : ℤ) then
            "🟢 +" ++ toString ((current.passed : ℤ) - (b.passed : ℤ))
          else if (current.passed : ℤ) - (b.passed : ℤ) < 0 then
            "🔴 " ++ toString ((current.passed : ℤ) - (b.passed : ℤ))
          else "⚪ +0") := by
        simp [getComparisonIcon, h0]
      constructor
      · constructor
        · intro hnew
          rw [hicon] at hnew
          by_cases hgt : 0 < (current.passed : ℤ) - (b.passed : ℤ)
          · rw [if_pos hgt] at hnew
            exact absurd hnew (green_ne_new _)
          · rw [if_neg hgt] at hnew
            by_cases hlt : (current.passed : ℤ) - (b.passed : ℤ) < 0
            · rw [if_pos hlt] at hnew
              exact absurd hnew (red_ne_new _)
            · rw [if_neg hlt] at hnew
              exact absurd hnew (by decide)
        · intro hcase
          rcases hcase with hn | ⟨b', hb', ht'⟩
          · cases hn
          · cases hb'
            exact absurd ht' h0
      · intro b' hb' ht'
        cases hb'
        refine ⟨?_, ?_, ?_⟩
        · intro hlt
          have hgt : 0 < (current.passed : ℤ) - (b.passed : ℤ) := by
            omega
          rw [hicon, if_pos hgt]
        · intro hlt
          have hgt : ¬ 0 < (current.passed : ℤ) - (b.passed : ℤ) := by
            omega
          have hlt' : (current.passed : ℤ) - (b.passed : ℤ) < 0 := by
            omega
          rw [hicon, if_neg hgt, if_pos hlt']
        · intro heq
          have h1 : ¬ 0 < (current.passed : ℤ) - (b.passed : ℤ) := by
            omega
          have h2 : ¬ (current.passed : ℤ) - (b.passed : ℤ) < 0 := by
            omega
          rw [hicon, if_neg h1, if_neg h2]

theorem baseline_comparison_classification_witness :
    getComparisonIcon curEx (some baseEx) = "🟢 +" ++ toString (2 : ℤ) := by
  have h := ((baseline_comparison_classification curEx (some baseEx)).2 baseEx rfl
    (by decide)).1 (by decide)
  simpa using h

/-- C6 counterexample: with canary as the only (hence first and primary)
requested baseline branch recording a false verdict for test t, and the
current run passing t, the detail table shows no +1 flag at all, because
the code reads only the branch key named main. -/
theorem detail_flags_counterexample :
    (generateDetailTable [rEx] [("canary", [("srv", bEx)])] =
      "| Scenario | srv |\n|----------|:---:|\n| t | ✅ |") ∧
    containsSubstr (generateDetailTable [rEx] [("canary", [("srv", bEx)])]) "+1" = false ∧
    bEx.total ≠ 0 ∧
    recLookup bEx.tests "t" = some false ∧
    recLookup rEx.tests "t" = some true := by
  refine ⟨by decide, by decide, by decide, by decide, by decide⟩

/-- C6 amended: per-test flags in the detail table are driven only by
the baseline entry stored under the branch key main, whatever baseline
branches were requested and in whatever order; against that baseline a
false to true flip is flagged +1, a true to false flip is flagged -1,
and an absent or unchanged verdict shows the bare icon. -/
theorem detail_flags_main_branch :
    (∀ (results : List ServerTestResult) (b1 b2 : JsRecord (JsRecord ServerTestResult)),
      recLookup b1 "main" = recLookup b2 "main" →
        generateDetailTable results b1 = generateDetailTable results b2) ∧
    (∀ (baselines : JsRecord (JsRecord ServerTestResult)) (r : ServerTestResult)
        (t : String) (bmain : JsRecord ServerTestResult) (bres : ServerTestResult),
      recLookup baselines "main" = some bmain →
      recLookup bmain r.serverName = some bres →
      ((recLookup bres.tests t = some false → recLookup r.tests t = some true →
          detailCell baselines r t = "✅ +1") ∧
       (recLookup bres.tests t = some true → recLookup r.tests t = some false →
          detailCell baselines r t = "❌ -1") ∧
       (recLookup bres.tests t = recLookup r.tests t →
          detailCell baselines r t = iconOf (recLookup r.tests t)) ∧
       (recLookup bres.tests t = none →
          detailCell baselines r t = iconOf (recLookup r.tests t)))) := by
  constructor
  · intro results b1 b2 h
    have hcell : detailCell b1 = detailCell b2 := by
      funext r t
      simp only [detailCell, h]
    simp only [generateDetailTable, hcell]
  · intro baselines r t bmain bres hmain hres
    refine ⟨?_, ?_, ?_, ?_⟩
    · intro hb hc
      simp [detailCell, hmain, hres, hb, hc, iconOf]
    · intro hb hc
      simp [detailCell, hmain, hres, hb, hc, iconOf]
    · intro hsame
      cases hcur : recLookup r.tests t with
      | none =>
        rw [hcur] at hsame
        simp [detailCell, hmain, hres, hsame, hcur]
      | some v =>
        rw [hcur] at hsame
        simp [detailCell, hmain, hres, hsame, hcur]
    · intro hnone
      simp [detailCell, hmain, hres, hnone]

theorem detail_flags_main_branch_witness :
    detailCell [("main", [("srv", bEx)])] rEx "t" = "✅ +1" :=
  ((detail_flags_main_branch.2 [("main", [("srv", bEx)])] rEx "t" [("srv", bEx)] bEx
    (by decide) (by decide)).1 (by decide) (by decide))

/-- C7: the tests map of the line-scan parsers keys each trimmed
captured name to the verdict of the last matching line bearing it, and
every recorded verdict comes from some line of the input. -/
theorem parser_last_write_wins (name out k : String) :
    (recLookup (parseConformanceOutput name out).tests k =
      Option.map Prod.snd
        (((jsSplitLines out).filterMap lineVerdict).reverse.find? (fun e => e.1 == k))) ∧
    (recLookup (parseOldResultsFile out name).tests k =
      Option.map Prod.snd
        (((jsSplitLines out).filterMap lineVerdict).reverse.find? (fun e => e.1 == k))) ∧
    (∀ v, recLookup (parseConformanceOutput name out).tests k = some v →
      ∃ line ∈ jsSplitLines out, lineVerdict line = some (k, v)) := by
  have hmain : recLookup (parseConformanceOutput name out).tests k =
      Option.map Prod.snd
        (((jsSplitLines out).filterMap lineVerdict).reverse.find? (fun e => e.1 == k)) := by
    simp only [parseConformanceOutput, finishResult]
    rw [parseLoop_tests, applyEntries_lookup]
    cases hr : ((jsSplitLines out).filterMap lineVerdict).reverse.find? (fun e => e.1 == k) with
    | some e => simp
    | none => simp [recLookup]
  refine ⟨hmain, ?_, ?_⟩
  · simp only [parseOldResultsFile, finishResult]
    rw [parseLoop_tests, applyEntries_lookup]
    cases hr : ((jsSplitLines out).filterMap lineVerdict).reverse.find? (fun e => e.1 == k) with
    | some e => simp
    | none => simp [recLookup]
  · intro v hv
    rw [hmain] at hv
    cases hr : ((jsSplitLines out).filterMap lineVerdict).reverse.find? (fun e => e.1 == k) with
    | none => rw [hr] at hv; cases hv
    | some e =>
      rw [hr] at hv
      obtain ⟨e1, e2⟩ := e
      have hkey : e1 = k := by
        have := List.find?_some hr
        simpa [beq_iff_eq] using this
      have hval : e2 = v := by
        simpa using hv
      have hmem : (e1, e2) ∈ (jsSplitLines out).filterMap lineVerdict := by
        have := List.mem_of_find?_eq_some hr
        exact List.mem_reverse.mp this
      obtain ⟨line, hline, hverdict⟩ := List.mem_filterMap.mp hmem
      exact ⟨line, hline, by rw [hverdict, hkey, hval]⟩

theorem parser_last_write_wins_witness :
    ∃ line ∈ jsSplitLines "✓ a: x\n✗ a: y", lineVerdict line = some ("a", false) :=
  (parser_last_write_wins "s" "✓ a: x\n✗ a: y" "a").2.2 false (by decide)

/-- C8: the reference text with one pass line and one fail line parses
to the expected map, counters and rate, and the empty text parses to
the all-zero result. -/
theorem parse_concrete_scenarios :
    (parseConformanceOutput "s" "✓ ping: ok\n✗ tools/list: timeout\n" =
      { serverName := "s", passed := 1, failed := 1, total := 2, rate := 50,
        tests := [("ping", true), ("tools/list", false)],
        rawOutput := "✓ ping: ok\n✗ tools/list: timeout\n" }) ∧
    (parseConformanceOutput "s" "" =
      { serverName := "s", passed := 0, failed := 0, total := 0, rate := 0,
        tests := [], rawOutput := "" }) := by
  refine ⟨by decide, by decide⟩

/-- C9: every scenario returned by the catalog parser comes from a line
tagged neither draft nor extension, and when the client section header
is absent the catalog is the empty list rather than an error. -/
theorem scenario_catalog_filters (output : String) :
    (∀ scen ∈ listClientScenarios output,
      ∃ line ∈ jsSplitLines output, scenMatch line = some scen ∧
        containsSubstr line "[draft]" = false ∧
        containsSubstr line "[extension]" = false) ∧
    ((∀ line ∈ jsSplitLines output, containsSubstr line "Client scenarios" = false) →
      listClientScenarios output = []) := by
  constructor
  · intro scen hs
    rcases lcsGo_sound (jsSplitLines output) false [] scen hs with ha | hex
    · exact absurd ha (List.not_mem_nil _)
    · exact hex
  · intro h
    exact lcsGo_no_header _ _ h

theorem scenario_catalog_filters_witness :
    listClientScenarios "no header here" = [] :=
  (scenario_catalog_filters "no header here").2 (by decide)
